import Mathlib

set_option maxRecDepth 100000

/-!
Verification of the incremental clinical-protocol extraction engine.

This file gives a shallow embedding, in Lean, of the core data model and
operations of the repository (checkpoint state machine, checkpoint
persistence, validator tiers, document chunker, comparison engine and
cross-document merge), translated from the Python sources under
`src/incremental_extractor/` and `src/unified_extractor_enhanced.py`,
together with theorems settling the specification claims about them.

Modelling conventions:
- document texts and candidate values are `List Char`; Python substring
  containment (`in`), `str.lower`/`str.upper`, `str.strip`, slicing and
  `str.rfind` are modelled by executable functions below (ASCII case
  mapping, as in `Char.toLower`);
- wall-clock timestamps (`datetime.now()`) carry no information relevant
  to any claim and are omitted from the records;
- Python dicts that preserve insertion order are modelled as association
  lists (`List (String × _)`), updated in place and appended on insert.
-/

namespace ClinicalSpec

/-- Generic association-list lookup, modelling Python `d[k]` / `k in d`
for insertion-ordered dicts. -/
def alistLookup {α : Type} (l : List (String × α)) (k : String) : Option α :=
  match l with
  | [] => none
  | (k0, v0) :: rest => if k0 = k then some v0 else alistLookup rest k

/-- Generic association-list update: replaces the value at an existing key
in place, appends a new binding otherwise (Python dict assignment). -/
def alistSet {α : Type} (l : List (String × α)) (k : String) (v : α) : List (String × α) :=
  match l with
  | [] => [(k, v)]
  | (k0, v0) :: rest => if k0 = k then (k0, v) :: rest else (k0, v0) :: alistSet rest k v

/-- Status of field extraction (`ExtractionStatus` in `schema.py`). -/
inductive ExtractionStatus : Type
  | pending
  | inProgress
  | completed
  | failed
  | skipped
deriving DecidableEq, Repr

/-- A status is terminal when it contributes to the checkpoint counters:
COMPLETED, FAILED or SKIPPED. -/
def ExtractionStatus.isTerminal : ExtractionStatus → Bool
  | .completed => true
  | .failed => true
  | .skipped => true
  | _ => false

/-- Individual field extraction result (`FieldExtraction` in `schema.py`).
The `extraction_time` field is a wall-clock timestamp and is omitted. -/
structure FieldExtraction where
  field_name : String
  value : Option String := none
  status : ExtractionStatus := .pending
  error_message : Option String := none
  confidence : Option ℚ := none
  source_text : Option String := none
deriving DecidableEq, Repr

/-- Checkpoint for resuming extraction (`ExtractionCheckpoint` in
`schema.py`); `start_time`/`last_update` timestamps omitted. -/
structure ExtractionCheckpoint where
  nct_number : String
  pdf_path : String
  pdf_type : String
  total_fields : Nat
  completed_fields : Nat := 0
  failed_fields : Nat := 0
  skipped_fields : Nat := 0
  fields : List (String × FieldExtraction) := []
  pdf_text_hash : Option String := none
deriving DecidableEq, Repr

/-- `ExtractionCheckpoint.is_complete` (schema.py line 42): note the
source compares with `>=`, not `==`. -/
def ExtractionCheckpoint.is_complete (c : ExtractionCheckpoint) : Bool :=
  c.completed_fields + c.failed_fields + c.skipped_fields ≥ c.total_fields

/-- Arguments of one `CheckpointManager.update_field_status` call
(checkpoint_manager.py lines 91-126). -/
structure FieldUpdate where
  field_name : String
  status : ExtractionStatus
  value : Option String := none
  error_message : Option String := none
  confidence : Option ℚ := none
  source_text : Option String := none
deriving DecidableEq, Repr

/-- `CheckpointManager.update_field_status`: creates the field as PENDING
if absent, overwrites status and any supplied attributes, and increments
exactly one counter when the transition leaves PENDING/IN_PROGRESS for a
terminal status.  The trailing `save_checkpoint` call mutates no
checkpoint state other than the omitted `last_update` timestamp. -/
def updateFieldStatus (c : ExtractionCheckpoint) (u : FieldUpdate) : ExtractionCheckpoint :=
  let old : FieldExtraction :=
    (alistLookup c.fields u.field_name).getD { field_name := u.field_name }
  let newField : FieldExtraction :=
    { old with
      status := u.status
      value := match u.value with | some v => some v | none => old.value
      error_message := match u.error_message with | some e => some e | none => old.error_message
      confidence := match u.confidence with | some q => some q | none => old.confidence
      source_text := match u.source_text with | some s => some s | none => old.source_text }
  { c with
    fields := alistSet c.fields u.field_name newField
    completed_fields := c.completed_fields +
      (if (old.status = .pending ∨ old.status = .inProgress) ∧ u.status = .completed
       then 1 else 0)
    failed_fields := c.failed_fields +
      (if (old.status = .pending ∨ old.status = .inProgress) ∧ u.status = .failed
       then 1 else 0)
    skipped_fields := c.skipped_fields +
      (if (old.status = .pending ∨ old.status = .inProgress) ∧ u.status = .skipped
       then 1 else 0) }

/-- Applying a sequence of `update_field_status` calls in order. -/
def applyUpdates (c : ExtractionCheckpoint) (us : List FieldUpdate) : ExtractionCheckpoint :=
  us.foldl updateFieldStatus c

/-- A checkpoint state reachable from `c0` by some sequence of
`update_field_status` transitions. -/
def CheckpointReachable (c0 c : ExtractionCheckpoint) : Prop :=
  ∃ us : List FieldUpdate, c = applyUpdates c0 us

/-- The target-field vocabulary: keys of `CTGOV_FIELD_MAPPING`
(schema.py lines 81-112), in order. -/
def CTGOV_FIELDS : List String :=
  ["nct_number", "study_title", "study_url", "acronym", "study_status",
   "brief_summary", "study_results", "conditions", "interventions",
   "primary_outcome_measures", "secondary_outcome_measures",
   "other_outcome_measures", "sponsor", "collaborators", "sex", "age",
   "phases", "enrollment", "funder_type", "study_type", "study_design",
   "other_ids", "start_date", "primary_completion_date", "completion_date",
   "first_posted", "results_first_posted", "last_update_posted",
   "locations", "study_documents"]

/-- A freshly created checkpoint, as built by
`IncrementalExtractor.extract_from_pdf` (extractor.py lines 103-143):
every CT.gov field initialized to PENDING, then, when the filename
yields an NCT number, that one field pre-populated as COMPLETED with
confidence 1.0 and the completed counter bumped. -/
def freshCheckpoint (nct pdfPath pdfType textHash : String)
    (filenameNct : Option String) : ExtractionCheckpoint :=
  let base : ExtractionCheckpoint :=
    { nct_number := nct
      pdf_path := pdfPath
      pdf_type := pdfType
      total_fields := CTGOV_FIELDS.length
      fields := CTGOV_FIELDS.map (fun f => (f, { field_name := f }))
      pdf_text_hash := some textHash }
  match filenameNct with
  | none => base
  | some v =>
      { base with
        fields := alistSet base.fields "nct_number"
          { field_name := "nct_number", value := some v, status := .completed,
            confidence := some 1 }
        completed_fields := base.completed_fields + 1 }

/-! ### C1: checkpoint counter invariant and `is_complete` -/

/-- Number of fields of an association list whose status is terminal. -/
def countTerminal (l : List (String × FieldExtraction)) : Nat :=
  (l.filter (fun p => p.2.status.isTerminal)).length

theorem countTerminal_cons (p : String × FieldExtraction) (l : List (String × FieldExtraction)) :
    countTerminal (p :: l) = p.2.status.isTerminal.toNat + countTerminal l := by
  cases h : p.2.status.isTerminal
  · simp [countTerminal, h]
  · simp [countTerminal, h]
    omega

theorem countTerminal_le_length (l : List (String × FieldExtraction)) :
    countTerminal l ≤ l.length :=
  List.length_filter_le _ l

theorem alistSet_map_fst_of_lookup {α : Type} (l : List (String × α)) (k : String)
    (old v : α) (h : alistLookup l k = some old) :
    (alistSet l k v).map Prod.fst = l.map Prod.fst := by
  induction l with
  | nil => simp [alistLookup] at h
  | cons p rest ih =>
    obtain ⟨k0, v0⟩ := p
    by_cases hk : k0 = k
    · simp [alistSet, hk]
    · simp only [alistLookup, if_neg hk] at h
      simp [alistSet, hk, ih h]

theorem countTerminal_alistSet (l : List (String × FieldExtraction)) (k : String)
    (old newF : FieldExtraction) (hnd : (l.map Prod.fst).Nodup)
    (h : alistLookup l k = some old) :
    countTerminal (alistSet l k newF) + old.status.isTerminal.toNat =
      countTerminal l + newF.status.isTerminal.toNat := by
  induction l with
  | nil => simp [alistLookup] at h
  | cons p rest ih =>
    obtain ⟨k0, v0⟩ := p
    simp only [List.map_cons, List.nodup_cons] at hnd
    by_cases hk : k0 = k
    · simp only [alistLookup, if_pos hk] at h
      cases h
      simp only [alistSet, if_pos hk, countTerminal_cons]
      omega
    · simp only [alistLookup, if_neg hk] at h
      simp only [alistSet, if_neg hk, countTerminal_cons]
      have := ih hnd.2 h
      omega

/-- The state invariant that `update_field_status` maintains when used as
the extraction loop does: the counters sum to the number of
terminal-status fields, keys are distinct, and there are exactly
`total_fields` of them. -/
def CheckpointInv (c : ExtractionCheckpoint) : Prop :=
  c.completed_fields + c.failed_fields + c.skipped_fields = countTerminal c.fields ∧
  (c.fields.map Prod.fst).Nodup ∧
  c.fields.length = c.total_fields

/-- A call to `update_field_status` is permitted (matches how the
extraction loop actually drives the state machine) when it addresses a
field already initialized in the checkpoint and never moves a field from
a terminal status back to PENDING or IN_PROGRESS. -/
def permittedUpdate (c : ExtractionCheckpoint) (u : FieldUpdate) : Bool :=
  match alistLookup c.fields u.field_name with
  | none => false
  | some old => !old.status.isTerminal || u.status.isTerminal

/-- All updates of a sequence are permitted at the state where each runs. -/
def permittedUpdates : ExtractionCheckpoint → List FieldUpdate → Bool
  | _, [] => true
  | c, u :: us => permittedUpdate c u && permittedUpdates (updateFieldStatus c u) us

/-- Reachability along permitted `update_field_status` transitions. -/
def GoodReachable (c0 c : ExtractionCheckpoint) : Prop :=
  ∃ us : List FieldUpdate, permittedUpdates c0 us = true ∧ c = applyUpdates c0 us

theorem isTerminal_false_iff (s : ExtractionStatus) :
    s.isTerminal = false ↔ (s = .pending ∨ s = .inProgress) := by
  cases s <;> simp [ExtractionStatus.isTerminal]

theorem inv_updateFieldStatus (c : ExtractionCheckpoint) (u : FieldUpdate)
    (hI : CheckpointInv c) (hp : permittedUpdate c u = true) :
    CheckpointInv (updateFieldStatus c u) := by
  obtain ⟨hsum, hnd, hlen⟩ := hI
  cases heq : alistLookup c.fields u.field_name with
  | none => simp [permittedUpdate, heq] at hp
  | some old =>
    have hp2 : old.status.isTerminal = false ∨ u.status.isTerminal = true := by
      rcases Bool.eq_false_or_eq_true old.status.isTerminal with h0 | h0
      · refine Or.inr ?_
        simpa [permittedUpdate, heq, h0] using hp
      · exact Or.inl h0
    set newF : FieldExtraction :=
      { old with
        status := u.status
        value := match u.value with | some v => some v | none => old.value
        error_message := match u.error_message with | some e => some e | none => old.error_message
        confidence := match u.confidence with | some q => some q | none => old.confidence
        source_text := match u.source_text with | some s => some s | none => old.source_text }
      with hnewF
    have hc := countTerminal_alistSet c.fields u.field_name old newF hnd heq
    have hnewStatus : newF.status = u.status := rfl
    rw [hnewStatus] at hc
    have hk := alistSet_map_fst_of_lookup c.fields u.field_name old newF heq
    have hl : (alistSet c.fields u.field_name newF).length = c.fields.length := by
      have := congrArg List.length hk
      simpa using this
    have hgoal2 : ((updateFieldStatus c u).fields.map Prod.fst).Nodup := by
      simp only [updateFieldStatus, heq, Option.getD_some, ← hnewF]
      rw [hk]; exact hnd
    have hgoal3 : (updateFieldStatus c u).fields.length = (updateFieldStatus c u).total_fields := by
      simp only [updateFieldStatus, heq, Option.getD_some, ← hnewF]
      rw [hl]; exact hlen
    refine ⟨?_, hgoal2, hgoal3⟩
    simp only [updateFieldStatus, heq, Option.getD_some, ← hnewF]
    by_cases hA : old.status = .pending ∨ old.status = .inProgress
    · have hold0 : old.status.isTerminal = false := (isTerminal_false_iff _).mpr hA
      rw [hold0] at hc
      cases hu : u.status <;> rw [hu] at hc <;>
        simp only [ExtractionStatus.isTerminal, Bool.toNat_true, Bool.toNat_false] at hc <;>
        simp [hA, hu] <;> omega
    · have hold1 : old.status.isTerminal = true := by
        rcases Bool.eq_false_or_eq_true old.status.isTerminal with h0 | h0
        · exact h0
        · exact absurd ((isTerminal_false_iff _).mp h0) hA
      have hu : u.status.isTerminal = true := by
        rcases hp2 with h0 | h0
        · rw [h0] at hold1; cases hold1
        · exact h0
      rw [hold1, hu] at hc
      simp [hA]
      omega

theorem inv_applyUpdates (us : List FieldUpdate) :
    ∀ c : ExtractionCheckpoint, CheckpointInv c → permittedUpdates c us = true →
      CheckpointInv (applyUpdates c us) := by
  induction us with
  | nil => intro c h _; exact h
  | cons u rest ih =>
    intro c h hp
    simp only [permittedUpdates, Bool.and_eq_true] at hp
    exact ih _ (inv_updateFieldStatus c u h hp.1) hp.2

theorem inv_freshCheckpoint (nct p t h : String) (fn : Option String) :
    CheckpointInv (freshCheckpoint nct p t h fn) := by
  cases fn with
  | none =>
    refine ⟨rfl, ?_, rfl⟩
    have hkeys : (freshCheckpoint nct p t h none).fields.map Prod.fst = CTGOV_FIELDS := rfl
    rw [hkeys]
    decide
  | some v =>
    refine ⟨rfl, ?_, rfl⟩
    have hkeys : (freshCheckpoint nct p t h (some v)).fields.map Prod.fst = CTGOV_FIELDS := rfl
    rw [hkeys]
    decide

/-- A fresh checkpoint for a Protocol document (no filename NCT hint),
used as the starting state of the C1 counterexample. -/
def c1Fresh : ExtractionCheckpoint :=
  freshCheckpoint "NCT00000000" "doc.pdf" "Protocol" "hash0" none

/-- An update sequence that completes all 30 target fields and then one
extra field name: `update_field_status` silently creates the extra field
and bumps the completed counter past `total_fields`. -/
def c1BadUpdates : List FieldUpdate :=
  CTGOV_FIELDS.map (fun f => { field_name := f, status := .completed, value := some "x" })
  ++ [{ field_name := "extra_field", status := .completed, value := some "x" }]

/-- The state reached by applying `c1BadUpdates` to the fresh checkpoint. -/
def c1BadState : ExtractionCheckpoint := applyUpdates c1Fresh c1BadUpdates

/-- Claim C1 is false as stated: a checkpoint state reachable from a
freshly created checkpoint by `update_field_status` transitions alone can
have `completed_fields + failed_fields + skipped_fields` strictly greater
than `total_fields` (an update may name a field outside the initialized
vocabulary, which `update_field_status` creates on the fly and counts),
and in that state `is_complete` is `true` (the source compares with `>=`)
while the sum does not equal `total_fields`. -/
theorem c1_reachable_sum_counterexample :
    CheckpointReachable c1Fresh c1BadState ∧
    c1BadState.completed_fields + c1BadState.failed_fields + c1BadState.skipped_fields >
      c1BadState.total_fields ∧
    c1BadState.is_complete = true ∧
    c1BadState.completed_fields + c1BadState.failed_fields + c1BadState.skipped_fields ≠
      c1BadState.total_fields :=
  ⟨⟨c1BadUpdates, rfl⟩, by decide, by decide, by decide⟩

/-- Claim C1 (amended): for every checkpoint state reachable from a
freshly created checkpoint by a sequence of `update_field_status`
transitions that (a) address only fields initialized in the checkpoint
and (b) never move a field from a terminal status (COMPLETED, FAILED,
SKIPPED) back to PENDING or IN_PROGRESS — which is how the extraction
loop drives the state machine — the sum
`completed_fields + failed_fields + skipped_fields` is at most
`total_fields`, and `is_complete` holds iff the sum equals
`total_fields`. -/
theorem c1_checkpoint_invariant (nct pdfPath pdfType textHash : String)
    (filenameNct : Option String) (c : ExtractionCheckpoint)
    (hreach : GoodReachable (freshCheckpoint nct pdfPath pdfType textHash filenameNct) c) :
    c.completed_fields + c.failed_fields + c.skipped_fields ≤ c.total_fields ∧
    (c.is_complete = true ↔
      c.completed_fields + c.failed_fields + c.skipped_fields = c.total_fields) := by
  obtain ⟨us, hperm, rfl⟩ := hreach
  obtain ⟨hsum, hnd, hlen⟩ :=
    inv_applyUpdates us _ (inv_freshCheckpoint nct pdfPath pdfType textHash filenameNct) hperm
  have hle := countTerminal_le_length (applyUpdates (freshCheckpoint nct pdfPath pdfType textHash filenameNct) us).fields
  constructor
  · omega
  · simp only [ExtractionCheckpoint.is_complete, ge_iff_le, decide_eq_true_eq]
    omega

/-- Witness for C1 (amended) at a concrete reachable state: one field
marked IN_PROGRESS and then COMPLETED. -/
theorem c1_checkpoint_invariant_witness :
    (applyUpdates (freshCheckpoint "NCT01234567" "a.pdf" "Protocol" "h1" none)
        [{ field_name := "sponsor", status := .inProgress },
         { field_name := "sponsor", status := .completed, value := some "Acme" }]).completed_fields +
      (applyUpdates (freshCheckpoint "NCT01234567" "a.pdf" "Protocol" "h1" none)
        [{ field_name := "sponsor", status := .inProgress },
         { field_name := "sponsor", status := .completed, value := some "Acme" }]).failed_fields +
      (applyUpdates (freshCheckpoint "NCT01234567" "a.pdf" "Protocol" "h1" none)
        [{ field_name := "sponsor", status := .inProgress },
         { field_name := "sponsor", status := .completed, value := some "Acme" }]).skipped_fields ≤
      (applyUpdates (freshCheckpoint "NCT01234567" "a.pdf" "Protocol" "h1" none)
        [{ field_name := "sponsor", status := .inProgress },
         { field_name := "sponsor", status := .completed, value := some "Acme" }]).total_fields ∧
    ((applyUpdates (freshCheckpoint "NCT01234567" "a.pdf" "Protocol" "h1" none)
        [{ field_name := "sponsor", status := .inProgress },
         { field_name := "sponsor", status := .completed, value := some "Acme" }]).is_complete = true ↔
      (applyUpdates (freshCheckpoint "NCT01234567" "a.pdf" "Protocol" "h1" none)
        [{ field_name := "sponsor", status := .inProgress },
         { field_name := "sponsor", status := .completed, value := some "Acme" }]).completed_fields +
        (applyUpdates (freshCheckpoint "NCT01234567" "a.pdf" "Protocol" "h1" none)
          [{ field_name := "sponsor", status := .inProgress },
           { field_name := "sponsor", status := .completed, value := some "Acme" }]).failed_fields +
        (applyUpdates (freshCheckpoint "NCT01234567" "a.pdf" "Protocol" "h1" none)
          [{ field_name := "sponsor", status := .inProgress },
           { field_name := "sponsor", status := .completed, value := some "Acme" }]).skipped_fields =
        (applyUpdates (freshCheckpoint "NCT01234567" "a.pdf" "Protocol" "h1" none)
          [{ field_name := "sponsor", status := .inProgress },
           { field_name := "sponsor", status := .completed, value := some "Acme" }]).total_fields) :=
  c1_checkpoint_invariant "NCT01234567" "a.pdf" "Protocol" "h1" none _
    ⟨[{ field_name := "sponsor", status := .inProgress },
      { field_name := "sponsor", status := .completed, value := some "Acme" }],
     by decide, rfl⟩

/-! ### C2: checkpoint persistence (`CheckpointManager.save_checkpoint`) -/

/-- Python `str.lower`, ASCII case mapping. -/
def pyLowerStr (s : String) : String := String.mk (s.data.map Char.toLower)

/-- `CheckpointManager.get_checkpoint_path` (checkpoint_manager.py lines
20-23): `{dir}/{nct}_{pdf_type.lower()}_checkpoint.json`. -/
def getCheckpointPath (dir nct pdfType : String) : String :=
  dir ++ "/" ++ nct ++ "_" ++ pyLowerStr pdfType ++ "_checkpoint.json"

/-- Render of an optional string as JSON (`null` or quoted; escape
sequences inside values are not modelled). -/
def jsonOpt : Option String → String
  | none => "null"
  | some s => "\"" ++ s ++ "\""

/-- Serialized form of a status (the `str`-valued enum of schema.py). -/
def statusStr : ExtractionStatus → String
  | .pending => "pending"
  | .inProgress => "in_progress"
  | .completed => "completed"
  | .failed => "failed"
  | .skipped => "skipped"

/-- One serialized `FieldExtraction` entry of the checkpoint JSON. -/
def serializeField (f : FieldExtraction) : String :=
  "\x7b\"field_name\": \"" ++ f.field_name ++ "\", \"value\": " ++ jsonOpt f.value ++
    ", \"status\": \"" ++ statusStr f.status ++ "\", \"error_message\": " ++
    jsonOpt f.error_message ++ "\x7d"

/-- The serialized JSON document `json.dump` writes in `save_checkpoint`
(checkpoint_manager.py lines 30-41), as a character list.  Indentation,
ISO timestamps and float rendering are presentation details not modelled;
the claims about persistence depend only on the write pattern, not on the
byte-exact payload. -/
def serializeCheckpoint (c : ExtractionCheckpoint) : List Char :=
  "\x7b\"nct_number\": \"".toList ++ c.nct_number.toList ++
  "\", \"pdf_path\": \"".toList ++ c.pdf_path.toList ++
  "\", \"pdf_type\": \"".toList ++ c.pdf_type.toList ++
  "\", \"total_fields\": ".toList ++ (toString c.total_fields).toList ++
  ", \"completed_fields\": ".toList ++ (toString c.completed_fields).toList ++
  ", \"failed_fields\": ".toList ++ (toString c.failed_fields).toList ++
  ", \"skipped_fields\": ".toList ++ (toString c.skipped_fields).toList ++
  ", \"fields\": \x7b".toList ++
  (String.intercalate ", "
    (c.fields.map (fun p => "\"" ++ p.1 ++ "\": " ++ serializeField p.2))).toList ++
  "\x7d, \"pdf_text_hash\": ".toList ++ (jsonOpt c.pdf_text_hash).toList ++
  "\x7d".toList

/-- A file-system operation relevant to checkpoint persistence. -/
inductive FsOp : Type
  | write (path : String) (content : List Char)
  | rename (src dst : String)
deriving DecidableEq, Repr

/-- The file-system operations `save_checkpoint` performs
(checkpoint_manager.py lines 40-41): one direct `open(path, "w")` +
`json.dump` to the final checkpoint path.  There is no temporary file and
no rename in the source. -/
def saveCheckpointOps (dir : String) (c : ExtractionCheckpoint) : List FsOp :=
  [FsOp.write (getCheckpointPath dir c.nct_number c.pdf_type) (serializeCheckpoint c)]

/-- File-system state: contents by path. -/
def FileSystem : Type := String → Option (List Char)

/-- Point update of a file system. -/
def fsUpdate (fs : FileSystem) (p : String) (v : Option (List Char)) : FileSystem :=
  fun q => if q = p then v else fs q

/-- Effect of completing one operation: a finished write replaces the
file contents; a rename atomically moves the source over the target. -/
def execOp (fs : FileSystem) : FsOp → FileSystem
  | .write p c => fsUpdate fs p (some c)
  | .rename src dst => fsUpdate (fsUpdate fs dst (fs src)) src none

/-- File-system states observable if the process crashes somewhere during
a sequence of operations: before any remaining operation, in the middle
of a non-atomic write (the file then holds an arbitrary prefix of the new
contents, the `open(..., "w")` having truncated it first), or after
completing an operation. Renames are atomic. -/
inductive CrashReachable : FileSystem → List FsOp → FileSystem → Prop
  | here (fs : FileSystem) (ops : List FsOp) : CrashReachable fs ops fs
  | midWrite (fs : FileSystem) (p : String) (c : List Char) (k : Nat) (ops : List FsOp) :
      CrashReachable fs (.write p c :: ops) (fsUpdate fs p (some (c.take k)))
  | step (fs : FileSystem) (op : FsOp) (ops : List FsOp) (fs2 : FileSystem) :
      CrashReachable (execOp fs op) ops fs2 → CrashReachable fs (op :: ops) fs2

/-- A small concrete checkpoint used in the C2 counterexample. -/
def c2Checkpoint : ExtractionCheckpoint :=
  { nct_number := "NCT02454972", pdf_path := "doc.pdf", pdf_type := "Protocol",
    total_fields := 0 }

/-- The checkpoint path of `c2Checkpoint` under the default directory. -/
def c2Target : String := getCheckpointPath "checkpoints" "NCT02454972" "Protocol"

/-- Initial file system for the C2 counterexample: the target file holds
a previous serialized state. -/
def c2Fs0 : FileSystem := fun p => if p = c2Target then some "OLDSTATE".toList else none

/-- Claim C2 is false as stated: `save_checkpoint` does not write to a
temporary location and rename it over the target — it opens the final
checkpoint path directly (checkpoint_manager.py line 40) — and a crash in
the middle of that write leaves the file holding a strict prefix of the
new serialized state, which is neither the complete old state nor the
complete new state. -/
theorem c2_save_not_atomic_counterexample :
    (¬ ∃ tmp content, tmp ≠ c2Target ∧
        saveCheckpointOps "checkpoints" c2Checkpoint =
          [FsOp.write tmp content, FsOp.rename tmp c2Target]) ∧
    ∃ fs2 : FileSystem,
      CrashReachable c2Fs0 (saveCheckpointOps "checkpoints" c2Checkpoint) fs2 ∧
      fs2 c2Target ≠ c2Fs0 c2Target ∧
      fs2 c2Target ≠ some (serializeCheckpoint c2Checkpoint) := by
  constructor
  · rintro ⟨tmp, content, hne, heq⟩
    have := congrArg List.length heq
    simp [saveCheckpointOps] at this
  · refine ⟨fsUpdate c2Fs0 c2Target (some ((serializeCheckpoint c2Checkpoint).take 1)), ?_, ?_, ?_⟩
    · exact CrashReachable.midWrite c2Fs0 _ _ 1 []
    · decide
    · decide

/-- Claim C2 (amended): for every checkpoint, `save_checkpoint` persists
it with a single direct (non-atomic) write of the serialized JSON to the
final checkpoint path — no temporary file, no rename — and consequently,
from any starting file system, an interruption mid-write can leave the
on-disk checkpoint file holding a strictly truncated prefix of the new
serialized state. -/
theorem c2_save_direct_write (dir : String) (c : ExtractionCheckpoint) :
    saveCheckpointOps dir c =
      [FsOp.write (getCheckpointPath dir c.nct_number c.pdf_type) (serializeCheckpoint c)] ∧
    ∀ fs : FileSystem, ∃ fs2 : FileSystem,
      CrashReachable fs (saveCheckpointOps dir c) fs2 ∧
      fs2 (getCheckpointPath dir c.nct_number c.pdf_type) =
        some ((serializeCheckpoint c).take 1) ∧
      (serializeCheckpoint c).take 1 ≠ serializeCheckpoint c := by
  refine ⟨rfl, fun fs => ?_⟩
  refine ⟨fsUpdate fs (getCheckpointPath dir c.nct_number c.pdf_type)
      (some ((serializeCheckpoint c).take 1)), ?_, ?_, ?_⟩
  · exact CrashReachable.midWrite fs _ _ 1 []
  · simp [fsUpdate]
  · intro h
    have hlen := congrArg List.length h
    have h2 : 2 ≤ (serializeCheckpoint c).length := by
      simp [serializeCheckpoint]
    simp only [List.length_take] at hlen
    omega

/-! ### C3: fingerprint mismatch discards the checkpoint -/

theorem alistLookup_alistSet {α : Type} (l : List (String × α)) (k f : String) (v : α) :
    alistLookup (alistSet l k v) f = if k = f then some v else alistLookup l f := by
  induction l with
  | nil => by_cases h : k = f <;> simp [alistSet, alistLookup, h]
  | cons p rest ih =>
    obtain ⟨k0, v0⟩ := p
    by_cases h0 : k0 = k
    · subst h0
      by_cases hf : k0 = f <;> simp [alistSet, alistLookup, hf]
    · by_cases hf : k0 = f
      · subst hf
        have hk : ¬ k = k0 := fun h => h0 h.symm
        simp [alistSet, alistLookup, h0, hk]
      · simp [alistSet, alistLookup, h0, hf, ih]

theorem alistLookup_initFields (names : List String) (f : String) (fe : FieldExtraction)
    (h : alistLookup (names.map fun n => (n, ({ field_name := n } : FieldExtraction))) f =
      some fe) : fe.status = .pending ∧ fe.value = none := by
  induction names with
  | nil => simp [alistLookup] at h
  | cons n rest ih =>
    simp only [List.map_cons, alistLookup] at h
    by_cases hn : n = f
    · rw [if_pos hn] at h
      cases h
      exact ⟨rfl, rfl⟩
    · rw [if_neg hn] at h
      exact ih h

/-- The checkpoint-selection logic at the head of
`IncrementalExtractor.extract_from_pdf` (extractor.py lines 87-143) for a
resuming run: a loaded checkpoint whose `pdf_text_hash` differs from the
hash of the current text is discarded, and a discarded or missing
checkpoint is recreated fresh (with the optional filename-derived NCT
number pre-populated). -/
def setupCheckpoint (loaded : Option ExtractionCheckpoint) (textHash : String)
    (nct pdfPath pdfType : String) (filenameNct : Option String) : ExtractionCheckpoint :=
  let resumed : Option ExtractionCheckpoint :=
    match loaded with
    | some c => if c.pdf_text_hash ≠ some textHash then none else some c
    | none => none
  match resumed with
  | some c => c
  | none => freshCheckpoint nct pdfPath pdfType textHash filenameNct

/-- A stale checkpoint, persisted against text hash `"aaaa"`, in which
`sponsor` was COMPLETED with value `"Old Corp"`. -/
def c3Stale : ExtractionCheckpoint :=
  applyUpdates (freshCheckpoint "NCT02454972" "p.pdf" "Protocol" "aaaa" none)
    [{ field_name := "sponsor", status := .completed, value := some "Old Corp" }]

/-- Claim C3 is false as stated: when the stored fingerprint differs from
the current text hash the checkpoint is indeed recreated and the stale
COMPLETED `sponsor` value is dropped, but not every target field starts
at PENDING — a filename-derived NCT number makes the recreated
checkpoint start `nct_number` at COMPLETED. -/
theorem c3_not_all_pending_counterexample :
    c3Stale.pdf_text_hash ≠ some "bbbb" ∧
    (alistLookup c3Stale.fields "sponsor").map FieldExtraction.status =
      some .completed ∧
    (alistLookup (setupCheckpoint (some c3Stale) "bbbb" "NCT02454972" "p.pdf" "Protocol"
        (some "NCT02454972")).fields "nct_number").map FieldExtraction.status =
      some .completed := by
  refine ⟨by decide, by decide, by decide⟩

/-- Claim C3 (amended): when the persisted fingerprint differs from the
current text hash, the checkpoint is discarded and recreated from
scratch — the result is exactly a fresh checkpoint, independent of the
stale contents, with no value reused from the stale checkpoint; every
field starts at PENDING with no value, except that `nct_number` starts
COMPLETED with the filename-derived value when the filename yields one. -/
theorem c3_fingerprint_mismatch_recreates (stale : ExtractionCheckpoint)
    (textHash nct pdfPath pdfType : String) (filenameNct : Option String)
    (hmismatch : stale.pdf_text_hash ≠ some textHash) :
    setupCheckpoint (some stale) textHash nct pdfPath pdfType filenameNct =
      freshCheckpoint nct pdfPath pdfType textHash filenameNct ∧
    ∀ f fe,
      alistLookup (setupCheckpoint (some stale) textHash nct pdfPath pdfType
        filenameNct).fields f = some fe →
      (fe.status = .pending ∧ fe.value = none) ∨
      (f = "nct_number" ∧ fe.status = .completed ∧ fe.value = filenameNct ∧
        filenameNct ≠ none) := by
  have hfresh : setupCheckpoint (some stale) textHash nct pdfPath pdfType filenameNct =
      freshCheckpoint nct pdfPath pdfType textHash filenameNct := by
    simp [setupCheckpoint, hmismatch]
  refine ⟨hfresh, ?_⟩
  rw [hfresh]
  intro f fe h
  cases hfn : filenameNct with
  | none =>
    rw [hfn] at h
    exact Or.inl (alistLookup_initFields CTGOV_FIELDS f fe h)
  | some v =>
    rw [hfn] at h
    simp only [freshCheckpoint] at h
    rw [alistLookup_alistSet] at h
    by_cases hf : "nct_number" = f
    · rw [if_pos hf] at h
      cases h
      exact Or.inr ⟨hf.symm, rfl, rfl, by simp⟩
    · rw [if_neg hf] at h
      exact Or.inl (alistLookup_initFields CTGOV_FIELDS f fe h)

/-- Witness for C3 (amended) at a concrete stale checkpoint and hash. -/
theorem c3_fingerprint_mismatch_recreates_witness :
    setupCheckpoint (some c3Stale) "cccc" "NCT02454972" "p.pdf" "Protocol" none =
      freshCheckpoint "NCT02454972" "p.pdf" "Protocol" "cccc" none ∧
    ∀ f fe,
      alistLookup (setupCheckpoint (some c3Stale) "cccc" "NCT02454972" "p.pdf" "Protocol"
        none).fields f = some fe →
      (fe.status = .pending ∧ fe.value = none) ∨
      (f = "nct_number" ∧ fe.status = .completed ∧ fe.value = (none : Option String) ∧
        (none : Option String) ≠ none) :=
  c3_fingerprint_mismatch_recreates c3Stale "cccc" "NCT02454972" "p.pdf" "Protocol" none
    (by decide)

/-! ### C8: selection of fields to (re-)extract on a run -/

/-- `PRIORITY_FIELDS` (schema.py lines 115-132). -/
def PRIORITY_FIELDS : List String :=
  ["nct_number", "study_title", "brief_summary", "conditions", "interventions",
   "primary_outcome_measures", "secondary_outcome_measures", "sponsor", "phases",
   "enrollment", "study_type", "study_design", "sex", "age", "start_date",
   "completion_date"]

/-- `IncrementalExtractor._get_pending_fields` (extractor.py lines
260-274): priority fields whose status is PENDING first, then the
remaining PENDING fields in checkpoint order.  Only PENDING is selected;
no other status is. -/
def getPendingFields (c : ExtractionCheckpoint) : List String :=
  let pri := PRIORITY_FIELDS.foldl
    (fun acc f =>
      match alistLookup c.fields f with
      | some fe => if fe.status = .pending then acc ++ [f] else acc
      | none => acc) []
  c.fields.foldl
    (fun acc p =>
      if p.2.status = .pending ∧ p.1 ∉ acc then acc ++ [p.1] else acc) pri

/-- Updates completing every target field except `sponsor`. -/
def c8CompletedUpdates : List FieldUpdate :=
  (CTGOV_FIELDS.filter (fun f => f ≠ "sponsor")).map
    (fun f => { field_name := f, status := .completed, value := some "x" })

/-- A checkpoint left by an interrupted run: every field terminal except
`sponsor`, which the crash left IN_PROGRESS. -/
def c8Stuck : ExtractionCheckpoint :=
  applyUpdates (freshCheckpoint "NCT03927651" "p.pdf" "Protocol" "h8" none)
    (c8CompletedUpdates ++ [{ field_name := "sponsor", status := .inProgress }])

/-- The same checkpoint with `sponsor` still PENDING instead. -/
def c8Pending : ExtractionCheckpoint :=
  applyUpdates (freshCheckpoint "NCT03927651" "p.pdf" "Protocol" "h8" none)
    c8CompletedUpdates

/-- Claim C8 fails on the code: on a resumed run, a field whose persisted
status is IN_PROGRESS is not selected for extraction again —
`_get_pending_fields` selects only PENDING fields, so the interrupted
field is never retried (and the checkpoint can never become complete),
whereas the same field left PENDING is selected.  The claim (and the
spec's §5 crash-recovery design) says IN_PROGRESS is retried exactly as
PENDING is; the code is the slip. -/
theorem c8_in_progress_not_retried :
    (alistLookup c8Stuck.fields "sponsor").map FieldExtraction.status =
      some .inProgress ∧
    getPendingFields c8Stuck = [] ∧
    c8Stuck.is_complete = false ∧
    (alistLookup c8Pending.fields "sponsor").map FieldExtraction.status =
      some .pending ∧
    getPendingFields c8Pending = ["sponsor"] := by
  refine ⟨by decide, by decide, by decide, by decide, by decide⟩

/-! ### Python string primitives over `List Char` -/

/-- Python whitespace (`str.strip` default / regex `\s`, ASCII range). -/
def isPySpace (c : Char) : Bool :=
  c = ' ' || c = '\t' || c = '\n' || c = '\r' || c = Char.ofNat 11 || c = Char.ofNat 12

/-- Python `\w` word character (ASCII): alphanumeric or underscore. -/
def isPyWordChar (c : Char) : Bool := c.isAlphanum || c = '_'

/-- Python `str.lower` on character lists (ASCII case mapping). -/
def pyLower (l : List Char) : List Char := l.map Char.toLower

/-- Python `str.upper` on character lists (ASCII case mapping). -/
def pyUpper (l : List Char) : List Char := l.map Char.toUpper

/-- Python `str.strip()`: drop leading and trailing whitespace. -/
def pyStripChars (l : List Char) : List Char :=
  ((l.dropWhile isPySpace).reverse.dropWhile isPySpace).reverse

/-- Does `ned` occur at the head of `hay`? -/
def isPrefixList : List Char → List Char → Bool
  | [], _ => true
  | _ :: _, [] => false
  | a :: as, b :: bs => a = b && isPrefixList as bs

/-- Python substring containment `ned in hay`. -/
def containsSub : List Char → List Char → Bool
  | [], ned => isPrefixList ned []
  | c :: rest, ned => isPrefixList ned (c :: rest) || containsSub rest ned

theorem isPrefixList_map (f : Char → Char) (ned hay : List Char)
    (h : isPrefixList ned hay = true) : isPrefixList (ned.map f) (hay.map f) = true := by
  induction ned generalizing hay with
  | nil => simp [isPrefixList]
  | cons a as ih =>
    cases hay with
    | nil => simp [isPrefixList] at h
    | cons b bs =>
      simp only [isPrefixList, Bool.and_eq_true, decide_eq_true_eq] at h
      simp only [List.map_cons, isPrefixList, Bool.and_eq_true, decide_eq_true_eq]
      exact ⟨congrArg f h.1, ih bs h.2⟩

theorem containsSub_map (f : Char → Char) (hay ned : List Char)
    (h : containsSub hay ned = true) : containsSub (hay.map f) (ned.map f) = true := by
  induction hay with
  | nil =>
    cases ned with
    | nil => simp [containsSub, isPrefixList]
    | cons a as => simp [containsSub, isPrefixList] at h
  | cons c rest ih =>
    simp only [containsSub, Bool.or_eq_true] at h
    rcases h with h | h
    · have := isPrefixList_map f ned (c :: rest) h
      simp only [List.map_cons] at this ⊢
      simp [containsSub, this]
    · simp only [List.map_cons, containsSub, Bool.or_eq_true]
      exact Or.inr (ih h)

/-- Split a character list at every separator matching `p`; the
separators are consumed (Python `str.split` / `re.split` on a
single-character class). -/
def splitOnPred (p : Char → Bool) : List Char → List (List Char)
  | [] => [[]]
  | c :: rest =>
    if p c then [] :: splitOnPred p rest
    else
      match splitOnPred p rest with
      | [] => [[c]]
      | h :: t => (c :: h) :: t

theorem length_dropWhile_le (p : Char → Bool) (l : List Char) :
    (l.dropWhile p).length ≤ l.length :=
  (l.dropWhile_sublist p).length_le

/-- Maximal runs of characters satisfying `p` (the word tokens of a
regex `\b[...]+\b` findall; see the callers for the approximation note). -/
def tokenizeRuns (p : Char → Bool) : List Char → List (List Char)
  | [] => []
  | c :: rest =>
    if p c then
      (c :: rest.takeWhile p) :: tokenizeRuns p (rest.dropWhile p)
    else tokenizeRuns p rest
termination_by l => l.length
decreasing_by
  · simp only [List.length_cons]
    have := length_dropWhile_le p rest
    omega
  · simp

/-! ### Validator (`smart_validator.py`, `field_categories.py`): C4, C10 -/

/-- `VERBATIM_FIELDS` (field_categories.py lines 4-13). -/
def VERBATIM_FIELDS : List String :=
  ["nct_number", "sponsor", "collaborators", "start_date", "completion_date",
   "enrollment", "phases", "locations"]

/-- `SUMMARY_FIELDS` (field_categories.py lines 16-23). -/
def SUMMARY_FIELDS : List String :=
  ["brief_summary", "study_design", "study_results", "interventions",
   "primary_outcome_measures", "secondary_outcome_measures"]

/-- `INFERRED_FIELDS` (field_categories.py lines 26-32). -/
def INFERRED_FIELDS : List String :=
  ["study_status", "study_type", "sex", "age", "funder_type"]

/-- `REGISTRY_ONLY_FIELDS` (field_categories.py lines 35-41). -/
def REGISTRY_ONLY_FIELDS : List String :=
  ["study_url", "first_posted", "results_first_posted", "last_update_posted",
   "study_documents"]

/-- `TERMINOLOGY_VARIANTS` (field_categories.py lines 44-49). -/
def termVariants (fieldName : String) : Option (List (List Char)) :=
  if fieldName = "conditions" then
    some (["indication", "disease", "disorder", "cancer type", "tumor type"].map
      String.toList)
  else if fieldName = "interventions" then
    some (["study drug", "treatment", "therapy", "investigational product"].map
      String.toList)
  else if fieldName = "primary_outcome_measures" then
    some (["primary endpoint", "primary objective", "primary efficacy"].map
      String.toList)
  else if fieldName = "secondary_outcome_measures" then
    some (["secondary endpoint", "secondary objective"].map String.toList)
  else none

/-- The not-found synonyms accepted outright by `validate_extraction`
(smart_validator.py line 29). -/
def notFoundSynonyms : List (List Char) :=
  ["NOT_FOUND", "NONE", "N/A"].map String.toList

/-- Stopwords of `_extract_key_terms` (smart_validator.py lines 191-192). -/
def keyTermStopwords : List (List Char) :=
  ["the", "a", "an", "and", "or", "but", "in", "on", "at", "to", "for",
   "of", "with", "by", "from", "will", "be", "is", "are", "was", "were"].map
    String.toList

/-- `SmartValidator._extract_key_terms` (smart_validator.py lines
188-206).  The regex findall of runs over letters, digits, slash and hyphen
(with boundary assertions) is modelled as maximal
runs over that character class (the boundary side conditions differ only
on tokens flanked by an underscore, which no claim exercises). -/
def extractKeyTerms (t : List Char) : List (List Char) :=
  let words := tokenizeRuns (fun c => c.isAlphanum || c = '/' || c = '-') t
  (words.filter (fun w =>
    w.length > 3 && !(keyTermStopwords.contains (pyLower w)) &&
    ((match w with | [] => false | c :: _ => c.isUpper) ||
     w.any (fun c => c.isDigit) || w.contains '/' || w.contains '-'))).take 10

/-- `SmartValidator._extract_medical_terms` (smart_validator.py lines
208-227): acronym tokens plus suffix/keyword patterns, deduplicated.
Regex `\b...\b` patterns are modelled on word tokens; `list(set(...))`
has arbitrary order, and only emptiness and zero-found tests are
consumed, so `dedup` order is immaterial. -/
def extractMedicalTerms (t : List Char) : List (List Char) :=
  let toks := tokenizeRuns isPyWordChar t
  let suffixToks (sfx : List Char) :=
    toks.filter (fun w =>
      sfx.length < w.length && (pyLower w).drop (w.length - sfx.length) = sfx)
  let litToks (s : List Char) := toks.filter (fun w => pyLower w = s)
  (toks.filter (fun w => w.length ≥ 2 && w.all (fun c => c.isUpper)) ++
   suffixToks "emia".toList ++ suffixToks "osis".toList ++ suffixToks "itis".toList ++
   litToks "response".toList ++ litToks "survival".toList ++
   litToks "progression".toList ++ litToks "toxicity".toList ++
   litToks "efficacy".toList).dedup

/-- `re.sub(r'[^\w\s]', ' ', s)`: replace every character that is neither
a word character nor whitespace by a space (smart_validator.py lines
70-71). -/
def cleanPunct (l : List Char) : List Char :=
  l.map (fun c => if isPyWordChar c || isPySpace c then c else ' ')

/-- `SmartValidator._validate_verbatim` (smart_validator.py lines 53-75):
semicolon-delimited values accept if any stripped component occurs
(raw or case-insensitively); single values accept on raw or
case-insensitive containment, then on punctuation-normalized
case-insensitive containment; otherwise reject. -/
def validateVerbatim (_fieldName : String) (v doc : List Char) : Bool × Option String :=
  if ';' ∈ v then
    let parts := (splitOnPred (fun c => c = ';') v).map pyStripChars
    let found := (parts.filter (fun p =>
      !p.isEmpty && (containsSub doc p || containsSub (pyLower doc) (pyLower p)))).length
    if found = 0 then (false, some "None of the values found in document")
    else (true, none)
  else if containsSub doc v || containsSub (pyLower doc) (pyLower v) then (true, none)
  else
    let cleanValue := pyStripChars (cleanPunct v)
    let cleanDoc := cleanPunct doc
    if containsSub (pyLower cleanDoc) (pyLower cleanValue) then (true, none)
    else (false, some ("Value '" ++ String.mk v ++ "' not found in document"))

/-- Strip the `(Drug|Device|Procedure|Behavioral|Treatment):\s*` labels
everywhere in the value (`re.sub`, smart_validator.py line 162). -/
def stripInterventionLabels : List Char → List Char
  | [] => []
  | c :: rest =>
    if isPrefixList "Drug:".toList (c :: rest) then
      stripInterventionLabels ((c :: rest).drop 5 |>.dropWhile isPySpace)
    else if isPrefixList "Device:".toList (c :: rest) then
      stripInterventionLabels ((c :: rest).drop 7 |>.dropWhile isPySpace)
    else if isPrefixList "Procedure:".toList (c :: rest) then
      stripInterventionLabels ((c :: rest).drop 10 |>.dropWhile isPySpace)
    else if isPrefixList "Behavioral:".toList (c :: rest) then
      stripInterventionLabels ((c :: rest).drop 11 |>.dropWhile isPySpace)
    else if isPrefixList "Treatment:".toList (c :: rest) then
      stripInterventionLabels ((c :: rest).drop 10 |>.dropWhile isPySpace)
    else c :: stripInterventionLabels rest
termination_by l => l.length
decreasing_by
  all_goals
    first
    | (simp only [List.length_cons]
       have := length_dropWhile_le isPySpace ((c :: rest).drop 5)
       simp only [List.length_drop, List.length_cons] at this
       omega)
    | (simp only [List.length_cons]
       have := length_dropWhile_le isPySpace ((c :: rest).drop 7)
       simp only [List.length_drop, List.length_cons] at this
       omega)
    | (simp only [List.length_cons]
       have := length_dropWhile_le isPySpace ((c :: rest).drop 10)
       simp only [List.length_drop, List.length_cons] at this
       omega)
    | (simp only [List.length_cons]
       have := length_dropWhile_le isPySpace ((c :: rest).drop 11)
       simp only [List.length_drop, List.length_cons] at this
       omega)

/-- `SmartValidator._validate_interventions` (smart_validator.py lines
159-186). -/
def validateInterventions (v doc : List Char) : Bool × Option String :=
  let cleanValue := stripInterventionLabels v
  let parts := splitOnPred (fun c => c = ';' || c = ',') cleanValue
  let found := parts.foldl (fun n rawPart =>
    let part := pyStripChars rawPart
    if part = [] then n
    else
      let name := part.takeWhile (fun c => c.isAlphanum || c = '-')
      if name ≠ [] then
        if containsSub (pyLower doc) (pyLower name) then n + 1 else n
      else if containsSub (pyLower doc) (pyLower part) then n + 1 else n) 0
  if found = 0 then (false, some "No interventions found in document")
  else (true, none)

/-- Design terms of `_validate_summary` (smart_validator.py lines 91-92). -/
def designTerms : List (List Char) :=
  ["multicenter", "open-label", "randomized", "controlled", "phase", "trial",
   "study", "cohort", "arm"].map String.toList

/-- `SmartValidator._validate_summary` (smart_validator.py lines
77-115).  The float threshold `0.3` is modelled exactly as the rational
3/10 (`10 * found < 3 * total`). -/
def validateSummary (fieldName : String) (v doc : List Char) : Bool × Option String :=
  if fieldName = "brief_summary" then
    let keyTerms := extractKeyTerms v
    let found := (keyTerms.filter (fun t => containsSub (pyLower doc) (pyLower t))).length
    if 10 * found < 3 * keyTerms.length then
      (false, some "Summary contains terms not found in document")
    else (true, none)
  else if fieldName = "study_design" then
    let foundAny := designTerms.any (fun t =>
      containsSub (pyLower v) t && containsSub (pyLower doc) t)
    if foundAny then (true, none)
    else (false, some "Study design terms not found in document")
  else if fieldName = "primary_outcome_measures" ∨ fieldName = "secondary_outcome_measures" then
    let terms := extractMedicalTerms v
    if terms = [] then (true, none)
    else if (terms.filter (fun t => containsSub (pyLower doc) (pyLower t))).length = 0 then
      (false, some "No outcome terms found in document")
    else (true, none)
  else if fieldName = "interventions" then validateInterventions v doc
  else (true, none)

/-- `SmartValidator._validate_inferred` (smart_validator.py lines
117-135): every control-flow path of the source returns `(True, None)`
(the branch bodies return `True` and the fall-through is
`return True, None`), so the function is the constant accept. -/
def validateInferred (_fieldName : String) (_v _doc : List Char) : Bool × Option String :=
  (true, none)

/-- `SmartValidator._validate_smart` (smart_validator.py lines 137-157). -/
def validateSmart (fieldName : String) (v doc : List Char) : Bool × Option String :=
  let variantHit :=
    match termVariants fieldName with
    | some vars => vars.any (fun t => containsSub (pyLower doc) t)
    | none => false
  if variantHit then (true, none)
  else if v.length > 1000 then (false, some "Extracted value unreasonably long")
  else
    let terms := extractKeyTerms v
    if terms ≠ [] ∧
        (terms.filter (fun t => containsSub (pyLower doc) (pyLower t))).length = 0 then
      (false, some "No relevant terms found in document")
    else (true, none)

/-- `SmartValidator.validate_extraction` (smart_validator.py lines
15-51): accept absent/not-found values outright, accept registry-only
fields, then dispatch on the field tier. -/
def validateExtraction (fieldName : String) (extractedValue : Option (List Char))
    (documentText : List Char) : Bool × Option String :=
  match extractedValue with
  | none => (true, none)
  | some v =>
    if v = [] ∨ pyUpper v ∈ notFoundSynonyms then (true, none)
    else if fieldName ∈ REGISTRY_ONLY_FIELDS then (true, none)
    else if fieldName ∈ VERBATIM_FIELDS then validateVerbatim fieldName v documentText
    else if fieldName ∈ SUMMARY_FIELDS then validateSummary fieldName v documentText
    else if fieldName ∈ INFERRED_FIELDS then validateInferred fieldName v documentText
    else validateSmart fieldName v documentText

theorem verbatim_not_registry (f : String) (h : f ∈ VERBATIM_FIELDS) :
    f ∉ REGISTRY_ONLY_FIELDS := by
  fin_cases h <;> decide

/-- Claim C4 is false as stated: `sponsor` is a verbatim-tier field and
the value `"Acme!"` does not occur anywhere in the document `"acme inc"`
under case-insensitive comparison, yet `validate_extraction` accepts it —
the punctuation-normalization fallback (smart_validator.py lines 69-73)
strips the `!` and finds `"acme"` in the normalized document. -/
theorem c4_verbatim_accept_counterexample :
    "sponsor" ∈ VERBATIM_FIELDS ∧
    containsSub (pyLower "acme inc".toList) (pyLower "Acme!".toList) = false ∧
    validateExtraction "sponsor" (some "Acme!".toList) "acme inc".toList = (true, none) := by
  refine ⟨by decide, by decide, by decide⟩

/-- Claim C4 (amended): for every verbatim-tier field and every candidate
value that is non-empty, not a not-found synonym and not
semicolon-delimited, if the value does not occur case-insensitively in
the document text and its punctuation-normalized, stripped form does not
occur case-insensitively in the punctuation-normalized document either,
then `validate_extraction` rejects the value. -/
theorem c4_verbatim_reject (fieldName : String) (v doc : List Char)
    (hfield : fieldName ∈ VERBATIM_FIELDS)
    (hne : v ≠ [])
    (hsyn : pyUpper v ∉ notFoundSynonyms)
    (hsemi : ';' ∉ v)
    (hci : containsSub (pyLower doc) (pyLower v) = false)
    (hclean : containsSub (pyLower (cleanPunct doc))
      (pyLower (pyStripChars (cleanPunct v))) = false) :
    (validateExtraction fieldName (some v) doc).1 = false := by
  have hreg : fieldName ∉ REGISTRY_ONLY_FIELDS := verbatim_not_registry fieldName hfield
  have hraw : containsSub doc v = false := by
    cases hr : containsSub doc v with
    | false => rfl
    | true =>
      have := containsSub_map Char.toLower doc v hr
      rw [show (doc.map Char.toLower) = pyLower doc from rfl,
        show (v.map Char.toLower) = pyLower v from rfl, hci] at this
      cases this
  simp only [validateExtraction]
  rw [if_neg (by
    rintro (h | h)
    · exact hne h
    · exact hsyn h)]
  rw [if_neg hreg, if_pos hfield]
  simp only [validateVerbatim]
  rw [if_neg hsemi]
  rw [if_neg (by simp [hraw, hci])]
  simp only [hclean, Bool.false_eq_true, if_false]

/-- Witness for C4 (amended): a fabricated sponsor name absent from the
document is rejected. -/
theorem c4_verbatim_reject_witness :
    (validateExtraction "sponsor" (some "Zorbofen".toList) "aspirin trial".toList).1 =
      false :=
  c4_verbatim_reject "sponsor" "Zorbofen".toList "aspirin trial".toList
    (by decide) (by decide) (by decide) (by decide) (by decide) (by decide)

/-- Claim C10: for every field name and document text,
`validate_extraction` accepts with no error message whenever the
candidate value is `None`, empty, or upper-cases to one of the not-found
synonyms NOT_FOUND, NONE, N/A (equivalently for these ASCII synonyms:
equals one of them case-insensitively), regardless of the field's tier. -/
theorem c10_absent_value_accepted (fieldName : String) (documentText : List Char)
    (extractedValue : Option (List Char))
    (h : extractedValue = none ∨ extractedValue = some [] ∨
      ∃ v, extractedValue = some v ∧ pyUpper v ∈ notFoundSynonyms) :
    validateExtraction fieldName extractedValue documentText = (true, none) := by
  rcases h with rfl | rfl | ⟨v, rfl, hv⟩
  · rfl
  · simp [validateExtraction]
  · simp [validateExtraction, hv]

/-- Witness for C10: the value `"n/a"` is accepted for a verbatim-tier
field even though it occurs nowhere in the document. -/
theorem c10_absent_value_accepted_witness :
    validateExtraction "sponsor" (some "n/a".toList) "some protocol text".toList =
      (true, none) :=
  c10_absent_value_accepted "sponsor" "some protocol text".toList (some "n/a".toList)
    (Or.inr (Or.inr ⟨"n/a".toList, rfl, by decide⟩))

/-! ### C9: `IntelligentComparator.compare_fields` short-circuit -/

/-- Outcome of `compare_fields` up to the point where it would consult
the oracle: either a locally computed verdict
`(match, confidence, explanation)` or delegation to the LLM call
(intelligent_comparator.py lines 29 onward). -/
inductive CompareOutcome : Type
  | res (isMatch : Bool) (confidence : ℚ) (explanation : String)
  | llmQuery
deriving DecidableEq, Repr

/-- `IntelligentComparator.compare_fields` (intelligent_comparator.py
lines 14-28): empty values short-circuit to a non-match, values equal
after `strip().lower()` short-circuit to `(True, 1.0, "Exact match")`,
anything else is delegated to the oracle. -/
def compareFields (_fieldName : String) (extractedValue ctgovValue : List Char) :
    CompareOutcome :=
  if extractedValue = [] ∨ ctgovValue = [] then
    .res false 0 "One or both values are empty"
  else if pyLower (pyStripChars extractedValue) = pyLower (pyStripChars ctgovValue) then
    .res true 1 "Exact match"
  else .llmQuery

/-- Equality up to case and whitespace, reading "whitespace" as
insensitivity to any whitespace difference: discard all whitespace, then
compare case-insensitively. -/
def EqUpToCaseAndWhitespace (a b : List Char) : Prop :=
  pyLower (a.filter (fun c => !isPySpace c)) = pyLower (b.filter (fun c => !isPySpace c))

instance (a b : List Char) : Decidable (EqUpToCaseAndWhitespace a b) := by
  unfold EqUpToCaseAndWhitespace
  exact inferInstance

/-- Claim C9 is false as stated: `"Phase  2"` (two internal spaces) and
`"Phase 2"` are non-empty and equal up to case and whitespace, yet
`compare_fields` does not short-circuit — `str.strip` removes only
leading and trailing whitespace, so the comparison is delegated to the
oracle. -/
theorem c9_internal_whitespace_counterexample :
    EqUpToCaseAndWhitespace "Phase  2".toList "Phase 2".toList ∧
    "Phase  2".toList ≠ ([] : List Char) ∧ "Phase 2".toList ≠ ([] : List Char) ∧
    compareFields "phases" "Phase  2".toList "Phase 2".toList = .llmQuery := by
  refine ⟨by decide, by decide, by decide, by decide⟩

/-- Claim C9 (amended): for every pair of non-empty extracted and
reference values that are equal after trimming leading/trailing
whitespace and lowercasing, `compare_fields` short-circuits to
match = true with confidence 1.0 and the "Exact match" explanation,
without consulting the oracle. -/
theorem c9_exact_match_short_circuit (fieldName : String)
    (extractedValue ctgovValue : List Char)
    (hne1 : extractedValue ≠ []) (hne2 : ctgovValue ≠ [])
    (heq : pyLower (pyStripChars extractedValue) = pyLower (pyStripChars ctgovValue)) :
    compareFields fieldName extractedValue ctgovValue = .res true 1 "Exact match" := by
  have hne : ¬(extractedValue = [] ∨ ctgovValue = []) := by
    rintro (h | h)
    · exact hne1 h
    · exact hne2 h
  unfold compareFields
  rw [if_neg hne, if_pos heq]

/-- Witness for C9 (amended): `"Phase 2"` against `" phase 2 "`. -/
theorem c9_exact_match_short_circuit_witness :
    compareFields "phases" "Phase 2".toList " phase 2 ".toList =
      .res true 1 "Exact match" :=
  c9_exact_match_short_circuit "phases" "Phase 2".toList " phase 2 ".toList
    (by decide) (by decide) (by decide)

/-! ### Chunker (`intelligent_chunker.py`): C6, C7 -/

/-- Python slice-index adjustment: negative indices count from the end
(clamped at 0), positive indices are clamped at the length. -/
def pyAdjustIndex (len : Nat) (i : Int) : Nat :=
  if i < 0 then (max (i + len) 0).toNat else min i.toNat len

/-- All positions (relative to offset `i`) at which `pat` occurs in the
scanned text. -/
def subOccurrences (pat : List Char) : List Char → Nat → List Nat
  | [], i => if isPrefixList pat [] then [i] else []
  | c :: rest, i =>
    (if isPrefixList pat (c :: rest) then [i] else []) ++ subOccurrences pat rest (i + 1)

/-- The occurrence positions of `pat` admissible for
`text.rfind(pat, lo, hi)`: within the adjusted range, in left-to-right
order. -/
def pyRfindCandidates (text pat : List Char) (lo hi : Int) : List Nat :=
  (subOccurrences pat text 0).filter
    (fun i => decide (pyAdjustIndex text.length lo ≤ i) &&
              decide (i + pat.length ≤ pyAdjustIndex text.length hi))

/-- Python `text.rfind(pat, lo, hi)`: the largest start position of an
occurrence of `pat` within the adjusted range, else `-1`. -/
def pyRfind (text pat : List Char) (lo hi : Int) : Int :=
  match (pyRfindCandidates text pat lo hi).getLast? with
  | some i => (i : Int)
  | none => -1

/-- Python `text[a:b]`. -/
def pySlice (text : List Char) (a b : Int) : List Char :=
  (text.take (pyAdjustIndex text.length b)).drop (pyAdjustIndex text.length a)

/-- `DocumentChunk` (intelligent_chunker.py lines 12-19). -/
structure DocumentChunk where
  chunk_id : Nat
  text : List Char
  start_char : Int
  end_char : Int
  page_numbers : List Nat
deriving DecidableEq, Repr

/-- Insertion into a sorted list of page numbers. -/
def insertSorted (n : Nat) : List Nat → List Nat
  | [] => [n]
  | m :: rest => if n ≤ m then n :: m :: rest else m :: insertSorted n rest

/-- Ascending sort of page numbers (Python `sorted`). -/
def sortNat (l : List Nat) : List Nat := l.foldr insertSorted []

/-- Body of the page scan of `_get_page_numbers` (intelligent_chunker.py
lines 135-142). -/
def getPageNumbersAux (startChar endChar : Int) : List Int → Nat → List Nat → List Nat
  | [], _, acc => acc
  | bp :: rest, currentPage, acc =>
    let acc2 := if startChar < bp then acc ++ [currentPage] else acc
    if endChar ≤ bp then acc2
    else getPageNumbersAux startChar endChar rest (currentPage + 1) acc2

/-- `IntelligentChunker._get_page_numbers` (intelligent_chunker.py lines
117-148): pages spanned by a chunk; `[1]` when no breaks are supplied.
The Python page set is returned sorted; duplicates cannot arise from the
scan but `dedup` mirrors the set semantics. -/
def getPageNumbers (startChar endChar : Int) (pageBreaks : Option (List Int)) : List Nat :=
  match pageBreaks with
  | none => [1]
  | some [] => [1]
  | some (bp :: rest) =>
    let pages := getPageNumbersAux startChar endChar (bp :: rest) 1 []
    let pages2 :=
      if endChar > (bp :: rest).getLast (by simp) then
        pages ++ [(bp :: rest).length + 1]
      else pages
    sortNat pages2.dedup

/-- The end position one loop iteration of
`IntelligentChunker.chunk_document` computes for a window starting at
`startPos` (intelligent_chunker.py lines 73-86): the raw window end,
pulled back to just after a paragraph break (searched in the last 500
characters of the window), else just after a sentence break (searched in
the last 200), when either lies strictly beyond the window start. -/
def chunkStep (chunkSize : Int) (text : List Char) (startPos : Int) : Int :=
  if min (startPos + chunkSize) (text.length : Int) < (text.length : Int) then
    if pyRfind text ['\n', '\n'] (startPos + chunkSize - 500)
        (min (startPos + chunkSize) (text.length : Int)) > startPos then
      pyRfind text ['\n', '\n'] (startPos + chunkSize - 500)
        (min (startPos + chunkSize) (text.length : Int)) + 2
    else if pyRfind text ['.', ' '] (startPos + chunkSize - 200)
        (min (startPos + chunkSize) (text.length : Int)) > startPos then
      pyRfind text ['.', ' '] (startPos + chunkSize - 200)
        (min (startPos + chunkSize) (text.length : Int)) + 2
    else min (startPos + chunkSize) (text.length : Int)
  else min (startPos + chunkSize) (text.length : Int)

/-- The chunk one loop iteration appends (intelligent_chunker.py lines
88-102). -/
def mkChunk (chunkSize : Int) (text : List Char) (pbs : Option (List Int))
    (chunkId : Nat) (startPos : Int) : DocumentChunk :=
  { chunk_id := chunkId
    text := pySlice text startPos (chunkStep chunkSize text startPos)
    start_char := startPos
    end_char := chunkStep chunkSize text startPos
    page_numbers := getPageNumbers startPos (chunkStep chunkSize text startPos) pbs }

/-- The `while start_pos < len(text)` loop of `chunk_document`
(intelligent_chunker.py lines 72-112), fuel-indexed: `none` means the
loop did not finish within `fuel` iterations.  After appending a chunk
the loop breaks when the (adjusted) end position has reached the text
length, else restarts at `end_pos - overlap_size`. -/
def chunkLoop (chunkSize overlapSize : Int) (text : List Char) (pbs : Option (List Int)) :
    Nat → Int → Nat → List DocumentChunk → Option (List DocumentChunk)
  | 0, _, _, _ => none
  | fuel + 1, startPos, chunkId, acc =>
    if startPos < (text.length : Int) then
      if chunkStep chunkSize text startPos ≥ (text.length : Int) then
        some (acc ++ [mkChunk chunkSize text pbs chunkId startPos])
      else
        chunkLoop chunkSize overlapSize text pbs fuel
          (chunkStep chunkSize text startPos - overlapSize) (chunkId + 1)
          (acc ++ [mkChunk chunkSize text pbs chunkId startPos])
    else some acc

/-- `IntelligentChunker.chunk_document` (intelligent_chunker.py lines
54-115), fuel-indexed: empty text yields no chunks, otherwise the loop
runs from position 0. -/
def chunk_document (chunkSize overlapSize : Int) (text : List Char)
    (pageBreaks : Option (List Int)) (fuel : Nat) : Option (List DocumentChunk) :=
  if text = [] then some []
  else chunkLoop chunkSize overlapSize text pageBreaks fuel 0 0 []

/-- The source loop, run on this input, never terminates: no amount of
fuel makes the fuel-indexed model return. -/
def ChunkDocumentDiverges (chunkSize overlapSize : Int) (text : List Char) : Prop :=
  ∀ fuel : Nat, chunk_document chunkSize overlapSize text none fuel = none

/-- If one iteration maps a window start to an end position that is still
inside the text and whose overlap-rewind lands back on the same start,
the loop runs forever. -/
theorem chunkLoop_stall (chunkSize overlapSize : Int) (text : List Char)
    (pbs : Option (List Int)) (s : Int)
    (hs : s < (text.length : Int))
    (he : chunkStep chunkSize text s < (text.length : Int))
    (hfix : chunkStep chunkSize text s - overlapSize = s) :
    ∀ (fuel : Nat) (chunkId : Nat) (acc : List DocumentChunk),
      chunkLoop chunkSize overlapSize text pbs fuel s chunkId acc = none := by
  intro fuel
  induction fuel with
  | zero => intro chunkId acc; rfl
  | succ n ih =>
    intro chunkId acc
    simp only [chunkLoop]
    rw [if_pos hs, if_neg (not_le.mpr he), hfix]
    exact ih (chunkId + 1) (acc ++ [mkChunk chunkSize text pbs chunkId s])

/-- A 1000-character text with its only paragraph break 98 characters in:
`"a" * 98 + "\n\n" + "b" * 900`. -/
def c6StallText : List Char :=
  List.replicate 98 'a' ++ '\n' :: '\n' :: List.replicate 900 'b'

/-- Claim C6 is false as stated: with `target_size = 500 >
overlap_size = 100 ≥ 0` and `c6StallText`, `chunk_document` never
terminates.  The first window ends at `min(0+500, 1000) = 500 < 1000`,
the paragraph-break search `rfind("\n\n", 0, 500)` finds position 98
(> 0), the end is pulled back to 100, and the next start is
`100 - 100 = 0` again — the end-reaches-text-length guard never fires,
so the precondition `target_size > overlap_size ≥ 0` does not prevent
the infinite loop. -/
theorem c6_chunker_divergence_counterexample :
    (500 : Int) > 100 ∧ (100 : Int) ≥ 0 ∧ ChunkDocumentDiverges 500 100 c6StallText := by
  refine ⟨by norm_num, by norm_num, ?_⟩
  intro fuel
  unfold chunk_document
  rw [if_neg (by decide)]
  exact chunkLoop_stall 500 100 c6StallText none 0 (by decide)
    (by rw [show chunkStep 500 c6StallText 0 = 100 from by decide]; decide)
    (by rw [show chunkStep 500 c6StallText 0 = 100 from by decide]; decide) fuel 0 []

theorem pyAdjustIndex_eq_of_range (len : Nat) (i : Int) (h0 : 0 ≤ i)
    (h1 : i ≤ (len : Int)) : ((pyAdjustIndex len i : Nat) : Int) = i := by
  unfold pyAdjustIndex
  rw [if_neg (not_lt.mpr h0)]
  have h2 : i.toNat ≤ len := by omega
  rw [min_eq_left h2]
  omega

theorem pyRfind_bounds (text pat : List Char) (lo hi : Int)
    (hne : pyRfind text pat lo hi ≠ -1) :
    ((pyAdjustIndex text.length lo : Nat) : Int) ≤ pyRfind text pat lo hi ∧
    pyRfind text pat lo hi + pat.length ≤ ((pyAdjustIndex text.length hi : Nat) : Int) ∧
    0 ≤ pyRfind text pat lo hi := by
  cases hlast : (pyRfindCandidates text pat lo hi).getLast? with
  | none =>
    exfalso
    apply hne
    unfold pyRfind
    rw [hlast]
  | some i =>
    have hval : pyRfind text pat lo hi = (i : Int) := by
      unfold pyRfind
      rw [hlast]
    have hmem : i ∈ pyRfindCandidates text pat lo hi := List.mem_of_mem_getLast? hlast
    unfold pyRfindCandidates at hmem
    rw [List.mem_filter] at hmem
    obtain ⟨-, hcond⟩ := hmem
    simp only [Bool.and_eq_true, decide_eq_true_eq] at hcond
    rw [hval]
    omega

theorem chunkStep_bounds (chunkSize overlapSize : Int) (text : List Char) (startPos : Int)
    (hov : 0 ≤ overlapSize) (hcs : overlapSize + 500 < chunkSize)
    (h0 : 0 ≤ startPos) (hlt : startPos < (text.length : Int)) :
    chunkStep chunkSize text startPos ≤ (text.length : Int) ∧
    startPos < chunkStep chunkSize text startPos ∧
    (chunkStep chunkSize text startPos < (text.length : Int) →
      startPos + (chunkSize - 498) ≤ chunkStep chunkSize text startPos) := by
  by_cases hE : min (startPos + chunkSize) (text.length : Int) < (text.length : Int)
  · have hsum : startPos + chunkSize < (text.length : Int) := by
      by_contra hc
      push_neg at hc
      rw [min_eq_right hc] at hE
      exact lt_irrefl _ hE
    have hmin : min (startPos + chunkSize) (text.length : Int) = startPos + chunkSize :=
      min_eq_left hsum.le
    simp only [chunkStep, hmin, if_pos hsum]
    by_cases hpb : pyRfind text ['\n', '\n'] (startPos + chunkSize - 500)
        (startPos + chunkSize) > startPos
    · rw [if_pos hpb]
      obtain ⟨hlo, hhi, hpos⟩ := pyRfind_bounds text ['\n', '\n']
        (startPos + chunkSize - 500) (startPos + chunkSize) (by omega)
      rw [pyAdjustIndex_eq_of_range text.length (startPos + chunkSize - 500)
        (by omega) (by omega)] at hlo
      rw [pyAdjustIndex_eq_of_range text.length (startPos + chunkSize)
        (by omega) (by omega)] at hhi
      have hplen : ((['\n', '\n'] : List Char).length : Int) = 2 := rfl
      rw [hplen] at hhi
      refine ⟨by omega, by omega, fun _ => by omega⟩
    · rw [if_neg hpb]
      by_cases hsb : pyRfind text ['.', ' '] (startPos + chunkSize - 200)
          (startPos + chunkSize) > startPos
      · rw [if_pos hsb]
        obtain ⟨hlo, hhi, hpos⟩ := pyRfind_bounds text ['.', ' ']
          (startPos + chunkSize - 200) (startPos + chunkSize) (by omega)
        rw [pyAdjustIndex_eq_of_range text.length (startPos + chunkSize - 200)
          (by omega) (by omega)] at hlo
        rw [pyAdjustIndex_eq_of_range text.length (startPos + chunkSize)
          (by omega) (by omega)] at hhi
        have hplen : ((['.', ' '] : List Char).length : Int) = 2 := rfl
        rw [hplen] at hhi
        refine ⟨by omega, by omega, fun _ => by omega⟩
      · rw [if_neg hsb]
        refine ⟨by omega, by omega, fun _ => by omega⟩
  · have hL : min (startPos + chunkSize) (text.length : Int) = (text.length : Int) :=
      le_antisymm (min_le_right _ _) (not_lt.mp hE)
    have hfix : chunkStep chunkSize text startPos = (text.length : Int) := by
      unfold chunkStep
      rw [if_neg hE, hL]
    rw [hfix]
    exact ⟨le_refl _, hlt, fun h => absurd h (lt_irrefl _)⟩

/-- Chunk spans cover every position of `[0, L)`. -/
def ChunksCover (chunks : List DocumentChunk) (bound : Int) : Prop :=
  ∀ x : Int, 0 ≤ x → x < bound →
    ∃ c ∈ chunks, c.start_char ≤ x ∧ x < c.end_char

/-- Every adjacent pair of chunks starts no later than the previous one
ends (no gap) and overlaps it by at most `overlapSize` characters. -/
def AdjacentOverlapBounded (overlapSize : Int) (chunks : List DocumentChunk) : Prop :=
  List.Chain' (fun a b => b.start_char ≤ a.end_char ∧
    a.end_char - b.start_char ≤ overlapSize) chunks

/-- Soundness of the chunk loop under the termination-ensuring size
hypothesis: it returns, the produced chunks start at the current window
position, cover the rest of the text, and each consecutive pair is
linked by the exact overlap rewind. -/
theorem chunkLoop_sound (chunkSize overlapSize : Int) (text : List Char)
    (pbs : Option (List Int)) (hov : 0 ≤ overlapSize)
    (hcs : overlapSize + 500 < chunkSize) :
    ∀ (fuel : Nat) (startPos : Int) (chunkId : Nat) (acc : List DocumentChunk),
      0 ≤ startPos → startPos < (text.length : Int) →
      ((text.length : Int) - startPos).toNat < fuel →
      ∃ posts : List DocumentChunk,
        chunkLoop chunkSize overlapSize text pbs fuel startPos chunkId acc =
          some (acc ++ posts) ∧
        (∀ h ∈ posts.head?, h.start_char = startPos) ∧
        (∀ x : Int, startPos ≤ x → x < (text.length : Int) →
          ∃ c ∈ posts, c.start_char ≤ x ∧ x < c.end_char) ∧
        List.Chain' (fun a b => b.start_char = a.end_char - overlapSize) posts := by
  intro fuel
  induction fuel with
  | zero =>
    intro startPos chunkId acc _ _ hmeas
    exact absurd hmeas (Nat.not_lt_zero _)
  | succ n ih =>
    intro startPos chunkId acc h0 hlt hmeas
    obtain ⟨hle, hprog, hcont⟩ :=
      chunkStep_bounds chunkSize overlapSize text startPos hov hcs h0 hlt
    simp only [chunkLoop]
    rw [if_pos hlt]
    by_cases hE : chunkStep chunkSize text startPos ≥ (text.length : Int)
    · rw [if_pos hE]
      refine ⟨[mkChunk chunkSize text pbs chunkId startPos], rfl, ?_, ?_, ?_⟩
      · intro h hh
        simp only [List.head?_cons, Option.mem_def, Option.some.injEq] at hh
        rw [← hh]
        rfl
      · intro x hx hxL
        refine ⟨mkChunk chunkSize text pbs chunkId startPos, by simp, hx, ?_⟩
        show x < chunkStep chunkSize text startPos
        omega
      · simp
    · rw [if_neg hE]
      push_neg at hE
      have hstep := hcont hE
      have h0n : 0 ≤ chunkStep chunkSize text startPos - overlapSize := by omega
      have hltn : chunkStep chunkSize text startPos - overlapSize < (text.length : Int) := by
        omega
      have hmeasn :
          ((text.length : Int) - (chunkStep chunkSize text startPos - overlapSize)).toNat < n := by
        omega
      obtain ⟨posts, hloop, hhead, hcover, hchain⟩ :=
        ih (chunkStep chunkSize text startPos - overlapSize) (chunkId + 1)
          (acc ++ [mkChunk chunkSize text pbs chunkId startPos]) h0n hltn hmeasn
      refine ⟨mkChunk chunkSize text pbs chunkId startPos :: posts, ?_, ?_, ?_, ?_⟩
      · rw [hloop, List.append_assoc]
        rfl
      · intro h hh
        simp only [List.head?_cons, Option.mem_def, Option.some.injEq] at hh
        rw [← hh]
        rfl
      · intro x hx hxL
        by_cases hxe : x < chunkStep chunkSize text startPos
        · exact ⟨mkChunk chunkSize text pbs chunkId startPos, by simp, hx, hxe⟩
        · push_neg at hxe
          obtain ⟨c, hc, hc1, hc2⟩ := hcover x (by omega) hxL
          exact ⟨c, List.mem_cons_of_mem _ hc, hc1, hc2⟩
      · rw [List.chain'_cons']
        refine ⟨?_, hchain⟩
        intro h hh
        rw [hhead h hh]
        rfl

/-- A 1200-character text with its only paragraph break 98 characters in:
`"c" * 98 + "\n\n" + "d" * 1100`. -/
def c7StallText : List Char :=
  List.replicate 98 'c' ++ '\n' :: '\n' :: List.replicate 1100 'd'

/-- Claim C7 is false as stated: with `overlap = 100 < 500 = target` and
`c7StallText`, `chunk_document` runs forever (the window end is pulled
back to the paragraph break at 98+2 and the overlap rewind lands on the
same start), so for this size pair no chunks covering `[0, L)` are ever
produced. -/
theorem c7_coverage_counterexample :
    (100 : Int) < 500 ∧ (0 : Int) ≤ 100 ∧
    ¬ ∃ (fuel : Nat) (chunks : List DocumentChunk),
        chunk_document 500 100 c7StallText none fuel = some chunks ∧
        ChunksCover chunks (c7StallText.length : Int) ∧
        AdjacentOverlapBounded 100 chunks := by
  refine ⟨by norm_num, by norm_num, ?_⟩
  rintro ⟨fuel, chunks, hcd, -, -⟩
  have hdiv : chunk_document 500 100 c7StallText none fuel = none := by
    unfold chunk_document
    rw [if_neg (by decide)]
    exact chunkLoop_stall 500 100 c7StallText none 0 (by decide)
      (by rw [show chunkStep 500 c7StallText 0 = 100 from by decide]; decide)
      (by rw [show chunkStep 500 c7StallText 0 = 100 from by decide]; decide) fuel 0 []
  rw [hdiv] at hcd
  cases hcd

/-- Claim C6 (amended): for every input text and every chunker
configuration with `overlap_size ≥ 0` and
`target_size > overlap_size + 500` (which covers the constructor
defaults 50000/1000 used by the extractor), `chunk_document` terminates —
`text.length + 1` loop iterations always suffice — and returns a finite
list of chunks; as stated, with only `target_size > overlap_size ≥ 0`,
the loop can run forever (see the C6 counterexample). -/
theorem c6_chunker_terminates (chunkSize overlapSize : Int) (text : List Char)
    (hov : 0 ≤ overlapSize) (hcs : overlapSize + 500 < chunkSize) :
    ∃ chunks : List DocumentChunk,
      chunk_document chunkSize overlapSize text none (text.length + 1) = some chunks := by
  by_cases ht : text = []
  · refine ⟨[], ?_⟩
    unfold chunk_document
    rw [if_pos ht]
  · obtain ⟨posts, hloop, -, -, -⟩ :=
      chunkLoop_sound chunkSize overlapSize text none hov hcs (text.length + 1) 0 0 []
        le_rfl (by
          have : text.length ≠ 0 := fun h => ht (List.length_eq_zero.mp h)
          omega)
        (by omega)
    refine ⟨posts, ?_⟩
    unfold chunk_document
    rw [if_neg ht, hloop]
    simp

/-- Witness for C6 (amended) at the extractor's own configuration. -/
theorem c6_chunker_terminates_witness :
    ∃ chunks : List DocumentChunk,
      chunk_document 50000 1000 "hello world".toList none
        ("hello world".toList.length + 1) = some chunks :=
  c6_chunker_terminates 50000 1000 "hello world".toList (by norm_num) (by norm_num)

/-- Claim C7 (amended): for every chunk target and overlap size with
`overlap ≥ 0` and `target > overlap + 500` (the stated `overlap <
target` alone lets the loop diverge, see the C7 counterexample),
chunking a text of length L terminates and produces chunks whose
character spans together cover `[0, L)` with no gaps, and each adjacent
pair of chunks overlaps by at most `overlap` characters. -/
theorem c7_chunker_coverage (chunkSize overlapSize : Int) (text : List Char)
    (hov : 0 ≤ overlapSize) (hcs : overlapSize + 500 < chunkSize) :
    ∃ chunks : List DocumentChunk,
      chunk_document chunkSize overlapSize text none (text.length + 1) = some chunks ∧
      ChunksCover chunks (text.length : Int) ∧
      AdjacentOverlapBounded overlapSize chunks := by
  by_cases ht : text = []
  · refine ⟨[], ?_, ?_, ?_⟩
    · unfold chunk_document
      rw [if_pos ht]
    · intro x hx hxL
      rw [ht] at hxL
      simp at hxL
      omega
    · simp [AdjacentOverlapBounded]
  · obtain ⟨posts, hloop, -, hcover, hchain⟩ :=
      chunkLoop_sound chunkSize overlapSize text none hov hcs (text.length + 1) 0 0 []
        le_rfl (by
          have : text.length ≠ 0 := fun h => ht (List.length_eq_zero.mp h)
          omega)
        (by omega)
    refine ⟨posts, ?_, ?_, ?_⟩
    · unfold chunk_document
      rw [if_neg ht, hloop]
      simp
    · intro x hx hxL
      exact hcover x hx hxL
    · exact hchain.imp (fun a b h => ⟨by omega, by omega⟩)

/-- Witness for C7 (amended) at the extractor's own configuration. -/
theorem c7_chunker_coverage_witness :
    ∃ chunks : List DocumentChunk,
      chunk_document 50000 1000 "clinical protocol".toList none
        ("clinical protocol".toList.length + 1) = some chunks ∧
      ChunksCover chunks ("clinical protocol".toList.length : Int) ∧
      AdjacentOverlapBounded 1000 chunks :=
  c7_chunker_coverage 50000 1000 "clinical protocol".toList (by norm_num) (by norm_num)

/-! ### MergeEngine (`unified_extractor_enhanced.py`): C5 -/

/-- One field entry of a per-document checkpoint as the merge reads the
raw checkpoint JSON (`field_data` in `merge_extractions`): the status is
the serialized string, the value/time are the serialized jsons.  Fields
not consumed by the merge are omitted. -/
structure MergeFieldData where
  status : String
  value : Option String := none
  extraction_time : Option String := none
  confidence : Option ℚ := none
deriving DecidableEq, Repr

/-- One per-document checkpoint as consumed by the merge
(`all_extractions[doc_type]`). -/
structure MergeDocExtraction where
  pdf_path : String
  fields : List (String × MergeFieldData) := []
deriving DecidableEq, Repr

/-- `field_priorities` lookup with the `_default` fallback
(unified_extractor_enhanced.py lines 86-105, 115). -/
def fieldPriorities (fieldName : String) : List String :=
  if fieldName = "study_title" ∨ fieldName = "conditions" ∨
     fieldName = "interventions" ∨ fieldName = "sponsor" then
    ["Protocol", "SAP", "ICF"]
  else if fieldName = "eligibility" then ["Protocol", "ICF", "SAP"]
  else if fieldName = "primary_outcome_measures" ∨
     fieldName = "secondary_outcome_measures" ∨
     fieldName = "statistical_methods" ∨ fieldName = "sample_size" then
    ["SAP", "Protocol", "ICF"]
  else if fieldName = "brief_summary" then ["ICF", "Protocol", "SAP"]
  else ["Protocol", "SAP", "ICF"]

/-- Python truthiness of the serialized `value` entry: present and not
the empty string. -/
def truthyValue : Option String → Bool
  | none => false
  | some s => s != ""

/-- Whether document `docType` supplies field `fieldName`
(unified_extractor_enhanced.py lines 119-123): the document is among the
given extractions, lists the field, and the field's status is
`"completed"` with a truthy value. -/
def fieldWins (allExt : List (String × MergeDocExtraction)) (fieldName docType : String) :
    Option MergeFieldData :=
  match alistLookup allExt docType with
  | none => none
  | some ext =>
    match alistLookup ext.fields fieldName with
    | none => none
    | some fd =>
        if fd.status = "completed" ∧ truthyValue fd.value then some fd else none

/-- The `for doc_type in priority: ... break` scan
(unified_extractor_enhanced.py lines 118-132). -/
def findWinner (allExt : List (String × MergeDocExtraction)) (fieldName : String) :
    List String → Option (String × MergeFieldData)
  | [] => none
  | d :: rest =>
    match fieldWins allExt fieldName d with
    | some fd => some (d, fd)
    | none => findWinner allExt fieldName rest

/-- One entry of the unified record's `fields` map: either a winning
value with provenance (lines 125-131) or the not-found record with the
attempted documents (lines 135-140). -/
inductive MergedField : Type
  | found (value : Option String) (source_document source_pdf : String)
      (extraction_time : Option String) (confidence : Option ℚ)
  | notFound (attempted_documents : List String)
deriving DecidableEq, Repr

/-- `all_extractions[doc_type]["pdf_path"]`. -/
def pdfPathOf (allExt : List (String × MergeDocExtraction)) (docType : String) : String :=
  match alistLookup allExt docType with
  | some ext => ext.pdf_path
  | none => ""

/-- The unified entry `merge_extractions` computes for one field name. -/
def mergeField (allExt : List (String × MergeDocExtraction)) (fieldName : String) :
    MergedField :=
  match findWinner allExt fieldName (fieldPriorities fieldName) with
  | some (d, fd) =>
      .found fd.value d (pdfPathOf allExt d) fd.extraction_time fd.confidence
  | none =>
      .notFound ((fieldPriorities fieldName).filter
        (fun d => (alistLookup allExt d).isSome))

/-- The union of field names across all documents
(`all_fields`, unified_extractor_enhanced.py lines 108-110).  The Python
set iterates in arbitrary order; the record is keyed by name, so the
fixed dedup order here is immaterial to every lookup. -/
def allFieldNames (allExt : List (String × MergeDocExtraction)) : List String :=
  ((allExt.map (fun p => p.2.fields.map Prod.fst)).flatten).dedup

/-- The unified record built by `merge_extractions`
(unified_extractor_enhanced.py lines 76-141); the derived `statistics`
block (lines 142-157) is a pure function of `fields` and is not
consumed by any claim. -/
structure UnifiedRecord where
  nct_number : String
  source_documents : List String
  fields : List (String × MergedField)
deriving DecidableEq, Repr

/-- `EnhancedUnifiedExtractor.merge_extractions`. -/
def mergeExtractions (nct : String) (allExt : List (String × MergeDocExtraction)) :
    UnifiedRecord :=
  { nct_number := nct
    source_documents := allExt.map Prod.fst
    fields := (allFieldNames allExt).map (fun f => (f, mergeField allExt f)) }

/-- Modelled on the spec's words: document `docType` holds a COMPLETED,
non-empty value `fd` for the field. -/
def SpecHasValue (allExt : List (String × MergeDocExtraction))
    (fieldName docType : String) (fd : MergeFieldData) : Prop :=
  ∃ ext, alistLookup allExt docType = some ext ∧
    alistLookup ext.fields fieldName = some fd ∧
    fd.status = "completed" ∧ fd.value ≠ none ∧ fd.value ≠ some ""

/-- Modelled on the spec's words: `docType` is the first document in the
field's priority order with a COMPLETED, non-empty value. -/
def IsFirstWinner (allExt : List (String × MergeDocExtraction))
    (fieldName docType : String) (fd : MergeFieldData) : Prop :=
  ∃ pre post, fieldPriorities fieldName = pre ++ docType :: post ∧
    (∀ d ∈ pre, ∀ fd2, ¬ SpecHasValue allExt fieldName d fd2) ∧
    SpecHasValue allExt fieldName docType fd

theorem truthyValue_iff (v : Option String) :
    truthyValue v = true ↔ v ≠ none ∧ v ≠ some "" := by
  cases v with
  | none => simp [truthyValue]
  | some s => simp [truthyValue]

theorem fieldWins_iff (allExt : List (String × MergeDocExtraction))
    (fieldName docType : String) (fd : MergeFieldData) :
    fieldWins allExt fieldName docType = some fd ↔
      SpecHasValue allExt fieldName docType fd := by
  cases h1 : alistLookup allExt docType with
  | none =>
    have hfw : fieldWins allExt fieldName docType = none := by
      simp only [fieldWins, h1]
    rw [hfw]
    unfold SpecHasValue
    constructor
    · intro h
      cases h
    · rintro ⟨ext2, hext2, -⟩
      rw [h1] at hext2
      cases hext2
  | some ext =>
    cases h2 : alistLookup ext.fields fieldName with
    | none =>
      have hfw : fieldWins allExt fieldName docType = none := by
        simp only [fieldWins, h1, h2]
      rw [hfw]
      unfold SpecHasValue
      constructor
      · intro h
        cases h
      · rintro ⟨ext2, hext2, hfd2, -⟩
        rw [h1] at hext2
        cases hext2
        rw [h2] at hfd2
        cases hfd2
    | some fd2 =>
      have hfw : fieldWins allExt fieldName docType =
          if fd2.status = "completed" ∧ truthyValue fd2.value = true then some fd2
          else none := by
        simp only [fieldWins, h1, h2]
      rw [hfw]
      unfold SpecHasValue
      constructor
      · intro h
        by_cases hc : fd2.status = "completed" ∧ truthyValue fd2.value = true
        · rw [if_pos hc] at h
          cases h
          exact ⟨ext, h1, h2, hc.1, ((truthyValue_iff _).mp hc.2).1,
            ((truthyValue_iff _).mp hc.2).2⟩
        · rw [if_neg hc] at h
          cases h
      · rintro ⟨ext2, hext2, hfd2, hst, hv1, hv2⟩
        rw [h1] at hext2
        cases hext2
        rw [h2] at hfd2
        cases hfd2
        rw [if_pos ⟨hst, (truthyValue_iff _).mpr ⟨hv1, hv2⟩⟩]

theorem findWinner_of_first (allExt : List (String × MergeDocExtraction))
    (fieldName : String) (pre : List String) (docType : String) (post : List String)
    (fd : MergeFieldData)
    (hpre : ∀ d ∈ pre, fieldWins allExt fieldName d = none)
    (hwin : fieldWins allExt fieldName docType = some fd) :
    findWinner allExt fieldName (pre ++ docType :: post) = some (docType, fd) := by
  induction pre with
  | nil =>
    simp only [List.nil_append, findWinner, hwin]
  | cons d rest ih =>
    simp only [List.cons_append, findWinner, hpre d (by simp)]
    exact ih (fun d2 h2 => hpre d2 (List.mem_cons_of_mem _ h2))

theorem findWinner_of_none (allExt : List (String × MergeDocExtraction))
    (fieldName : String) (l : List String)
    (h : ∀ d ∈ l, fieldWins allExt fieldName d = none) :
    findWinner allExt fieldName l = none := by
  induction l with
  | nil => rfl
  | cons d rest ih =>
    simp only [findWinner, h d (by simp)]
    exact ih (fun d2 h2 => h d2 (List.mem_cons_of_mem _ h2))

theorem alistLookup_mem {α : Type} (l : List (String × α)) (k : String) (v : α)
    (h : alistLookup l k = some v) : (k, v) ∈ l := by
  induction l with
  | nil => simp [alistLookup] at h
  | cons p rest ih =>
    obtain ⟨k0, v0⟩ := p
    by_cases h0 : k0 = k
    · subst h0
      simp only [alistLookup, if_pos rfl] at h
      cases h
      exact List.mem_cons_self _ _
    · simp only [alistLookup, if_neg h0] at h
      exact List.mem_cons_of_mem _ (ih h)

theorem alistLookup_map_self (names : List String) (g : String → MergedField)
    (f : String) (hf : f ∈ names) :
    alistLookup (names.map (fun n => (n, g n))) f = some (g f) := by
  induction names with
  | nil => cases hf
  | cons n rest ih =>
    by_cases hn : n = f
    · subst hn
      simp [alistLookup]
    · rcases List.mem_cons.mp hf with h | h
      · exact absurd h.symm hn
      · simp only [List.map_cons, alistLookup, if_neg hn]
        exact ih h

theorem mem_allFieldNames (allExt : List (String × MergeDocExtraction))
    (fieldName docType : String) (fd : MergeFieldData)
    (h : SpecHasValue allExt fieldName docType fd) :
    fieldName ∈ allFieldNames allExt := by
  obtain ⟨ext, hext, hfd, -, -, -⟩ := h
  have h1 : (docType, ext) ∈ allExt := alistLookup_mem _ _ _ hext
  have h2 : (fieldName, fd) ∈ ext.fields := alistLookup_mem _ _ _ hfd
  unfold allFieldNames
  rw [List.mem_dedup]
  rw [List.mem_flatten]
  refine ⟨ext.fields.map Prod.fst, ?_, ?_⟩
  · exact List.mem_map_of_mem _ h1
  · exact List.mem_map_of_mem _ h2

/-- Claim C5: for every field name appearing in any per-document
checkpoint given to the merge, if some document is the first in the
field's priority order with a COMPLETED, non-empty value, the unified
record assigns that document's value with its document type and source
path as provenance; and when no document in the priority order has such
a value, the field is still present with value null (the `notFound`
entry) and the list of attempted documents — it is never dropped. -/
theorem c5_merge_first_priority_wins (nct : String)
    (allExt : List (String × MergeDocExtraction)) (fieldName : String) :
    (∀ docType fd, IsFirstWinner allExt fieldName docType fd →
      alistLookup (mergeExtractions nct allExt).fields fieldName =
        some (.found fd.value docType (pdfPathOf allExt docType)
          fd.extraction_time fd.confidence)) ∧
    (fieldName ∈ allFieldNames allExt →
      (∀ docType ∈ fieldPriorities fieldName,
        ∀ fd, ¬ SpecHasValue allExt fieldName docType fd) →
      alistLookup (mergeExtractions nct allExt).fields fieldName =
        some (.notFound ((fieldPriorities fieldName).filter
          (fun d => (alistLookup allExt d).isSome)))) := by
  constructor
  · rintro docType fd ⟨pre, post, hsplit, hpre, hwin⟩
    have hw : fieldWins allExt fieldName docType = some fd :=
      (fieldWins_iff allExt fieldName docType fd).mpr hwin
    have hmem : fieldName ∈ allFieldNames allExt :=
      mem_allFieldNames allExt fieldName docType fd hwin
    have hpre2 : ∀ d ∈ pre, fieldWins allExt fieldName d = none := by
      intro d hd
      cases h2 : fieldWins allExt fieldName d with
      | none => rfl
      | some fd2 =>
        exact absurd ((fieldWins_iff allExt fieldName d fd2).mp h2) (hpre d hd fd2)
    have hfw : findWinner allExt fieldName (fieldPriorities fieldName) =
        some (docType, fd) := by
      rw [hsplit]
      exact findWinner_of_first allExt fieldName pre docType post fd hpre2 hw
    show alistLookup ((allFieldNames allExt).map (fun f => (f, mergeField allExt f)))
        fieldName = _
    rw [alistLookup_map_self _ _ _ hmem]
    unfold mergeField
    rw [hfw]
  · intro hmem hnone
    have hfw : findWinner allExt fieldName (fieldPriorities fieldName) = none := by
      apply findWinner_of_none
      intro d hd
      cases h2 : fieldWins allExt fieldName d with
      | none => rfl
      | some fd2 =>
        exact absurd ((fieldWins_iff allExt fieldName d fd2).mp h2) (hnone d hd fd2)
    show alistLookup ((allFieldNames allExt).map (fun f => (f, mergeField allExt f)))
        fieldName = _
    rw [alistLookup_map_self _ _ _ hmem]
    unfold mergeField
    rw [hfw]

/-- The merge scenario of the claim: a Protocol checkpoint with
`sponsor` COMPLETED as "Acme Corp" and a SAP checkpoint where `sponsor`
FAILED. -/
def c5AllExt : List (String × MergeDocExtraction) :=
  [("Protocol",
    { pdf_path := "protocol.pdf",
      fields := [("sponsor", { status := "completed", value := some "Acme Corp" })] }),
   ("SAP",
    { pdf_path := "sap.pdf",
      fields := [("sponsor", { status := "failed", value := none })] })]

/-- Witness for C5: in the claim's scenario the unified `sponsor` is
"Acme Corp" with source document "Protocol". -/
theorem c5_merge_first_priority_wins_witness :
    alistLookup (mergeExtractions "NCT02454972" c5AllExt).fields "sponsor" =
      some (.found (some "Acme Corp") "Protocol" (pdfPathOf c5AllExt "Protocol")
        none none) :=
  (c5_merge_first_priority_wins "NCT02454972" c5AllExt "sponsor").1 "Protocol"
    { status := "completed", value := some "Acme Corp" }
    ⟨[], ["SAP", "ICF"], by decide, by simp,
      ⟨{ pdf_path := "protocol.pdf",
         fields := [("sponsor", { status := "completed", value := some "Acme Corp" })] },
       by decide, by decide, rfl, by decide, by decide⟩⟩

end ClinicalSpec
